import Mathlib

/-!
# saucer: the GTK/WebKit webview backend

A shallow embedding of

* `private/saucer/gtk.utils.inl`  (the reference-counting handle `utils::ref_ptr`), and
* `src/webkit.webview.cpp`        (the member functions of `saucer::webview`),

followed by the properties established about them.

Conventions of the embedding.

* A raw native pointer `T *` is an `Option Nat`: `none` is `nullptr`, `some a` is the
  address of a native object.
* Calls that leave the translated code (WebKit/GTK functions, the window's
  `start_resize`/`start_drag`, the event bus `m_events`, `dispatch`) are
  recorded, in program order, in a trace; every entry carries the thread that made it.
* A member function takes the calling thread as its first argument and the object
  as its last one, and returns the new object together with the trace of its calls.
-/

namespace saucer

/-! ## `utils::ref_ptr` -/

namespace utils

/-- A raw pointer `T *`: `none` is `nullptr`. -/
abbrev raw_ptr := Option Nat

/-- One change of a native reference count. `adopted a` records an owned reference
that enters a handle through a raw pointer, `ref a` a call of the template argument
`Ref` on `a`, and `unref a` a call of the template argument `Unref` on `a`. -/
inductive rc_event where
  | adopted (a : Nat)
  | ref (a : Nat)
  | unref (a : Nat)
  deriving DecidableEq, Repr

/-- The body of `ref_ptr<T, Ref, Unref>::perform<Action>(T *data)`:
`if (data) std::invoke(Action, data); return data;`. -/
def perform (Action : Nat → rc_event) (data : raw_ptr) (log : List rc_event) :
    raw_ptr × List rc_event :=
  match data with
  | some a => (data, log ++ [Action a])
  | none => (data, log)

/-- The class `ref_ptr<T, Ref, Unref>`: its only member is `T *m_data`. -/
structure ref_ptr where
  m_data : raw_ptr
  deriving DecidableEq, Repr

namespace ref_ptr

/-- The constructor `ref_ptr()`. -/
def default_ctor : ref_ptr := ⟨none⟩

/-- The constructor `ref_ptr(T *data)`. -/
def raw_ctor (data : raw_ptr) : ref_ptr := ⟨data⟩

/-- The constructor `ref_ptr(const ref_ptr &other)`. -/
def copy_ctor (other : ref_ptr) (log : List rc_event) : ref_ptr × List rc_event :=
  let r := perform rc_event.ref other.m_data log
  (⟨r.1⟩, r.2)

/-- The expression `std::exchange(other.m_data, nullptr)`: the old value and the
updated `other`. -/
def exchange_null (other : ref_ptr) : raw_ptr × ref_ptr :=
  (other.m_data, { other with m_data := none })

/-- The constructor `ref_ptr(ref_ptr &&other)`: the new handle and the updated `other`. -/
def move_ctor (other : ref_ptr) : ref_ptr × ref_ptr :=
  let e := exchange_null other
  (⟨e.1⟩, e.2)

/-- The member `get()`. -/
def get (self : ref_ptr) : raw_ptr := self.m_data

/-- The conversion `operator bool()`. -/
def to_bool (self : ref_ptr) : Bool := self.m_data != none

/-- The member `reset(T *other)`: `perform<Unref>(m_data); m_data = other;`. -/
def reset (self : ref_ptr) (other : raw_ptr) (log : List rc_event) :
    ref_ptr × List rc_event :=
  let r := perform rc_event.unref self.m_data log
  ({ self with m_data := other }, r.2)

/-- The destructor: `reset(nullptr)`. -/
def dtor (self : ref_ptr) (log : List rc_event) : ref_ptr × List rc_event :=
  reset self none log

/-- The static member `ref(T *data)`: `return perform<Ref>(data);`, converted to a
handle by `ref_ptr(T *)`. -/
def ref (data : raw_ptr) (log : List rc_event) : ref_ptr × List rc_event :=
  let r := perform rc_event.ref data log
  (raw_ctor r.1, r.2)

end ref_ptr

/-- The objects of type `ref_ptr` of a program, by address: slot `i` is `some h` when a
live handle `h` is stored at address `i` and `none` once it has been destroyed;
`log` is the history of reference-count changes. -/
structure memory where
  objects : List (Option ref_ptr)
  log : List rc_event
  deriving DecidableEq, Repr

/-- The memory of a program that has created no handle yet. -/
def memory.empty : memory := ⟨[], []⟩

/-- The live handle stored at address `i`, if any. -/
def memory.at (m : memory) (i : Nat) : Option ref_ptr := (m.objects[i]?).join

/-- The operations a program applies to handles; `self` and `other` are addresses. -/
inductive op where
  | construct_default
  | construct_raw (data : raw_ptr)
  | ref (data : raw_ptr)
  | construct_copy (other : Nat)
  | construct_move (other : Nat)
  | assign_copy (self other : Nat)
  | assign_move (self other : Nat)
  | reset (self : Nat) (data : raw_ptr)
  | destroy (self : Nat)
  deriving DecidableEq, Repr

/-- The reference a raw pointer handed to a handle brings with it: by the calling
convention of `ref_ptr(T *)` and `reset(T *)` a non-null pointer carries one owned
reference. -/
def adopt (data : raw_ptr) (log : List rc_event) : List rc_event :=
  match data with
  | some a => log ++ [rc_event.adopted a]
  | none => log

/-- The copy assignment `operator=(const ref_ptr &other)` of the handle at `self`:
`if (this != &other) reset(perform<Ref>(other.m_data)); return *this;`. -/
def assign_copy (self other : Nat) (hs ho : ref_ptr) (m : memory) : memory :=
  if self ≠ other then
    let r := perform rc_event.ref ho.m_data m.log
    let s := ref_ptr.reset hs r.1 r.2
    { objects := m.objects.set self (some s.1), log := s.2 }
  else m

/-- The move assignment `operator=(ref_ptr &&other)` of the handle at `self`:
`if (this != &other) reset(std::exchange(other.m_data, nullptr)); return *this;`. -/
def assign_move (self other : Nat) (hs ho : ref_ptr) (m : memory) : memory :=
  if self ≠ other then
    let e := ref_ptr.exchange_null ho
    let s := ref_ptr.reset hs e.1 m.log
    { objects := (m.objects.set other (some e.2)).set self (some s.1), log := s.2 }
  else m

/-- One operation of a program. The result is `none` when the operation names an
address that holds no live handle (such a program has no defined behaviour). -/
def step (o : op) (m : memory) : Option memory :=
  match o with
  | .construct_default =>
      some { m with objects := m.objects ++ [some ref_ptr.default_ctor] }
  | .construct_raw data =>
      some { objects := m.objects ++ [some (ref_ptr.raw_ctor data)], log := adopt data m.log }
  | .ref data =>
      let r := ref_ptr.ref data m.log
      some { objects := m.objects ++ [some r.1], log := r.2 }
  | .construct_copy other =>
      (m.at other).map fun ho =>
        let r := ref_ptr.copy_ctor ho m.log
        { objects := m.objects ++ [some r.1], log := r.2 }
  | .construct_move other =>
      (m.at other).map fun ho =>
        let r := ref_ptr.move_ctor ho
        { m with objects := (m.objects.set other (some r.2)) ++ [some r.1] }
  | .assign_copy self other =>
      (m.at self).bind fun hs => (m.at other).map fun ho => assign_copy self other hs ho m
  | .assign_move self other =>
      (m.at self).bind fun hs => (m.at other).map fun ho => assign_move self other hs ho m
  | .reset self data =>
      (m.at self).map fun hs =>
        let r := ref_ptr.reset hs data (adopt data m.log)
        { objects := m.objects.set self (some r.1), log := r.2 }
  | .destroy self =>
      (m.at self).map fun hs =>
        let r := ref_ptr.dtor hs m.log
        { objects := m.objects.set self none, log := r.2 }

/-- A program: its operations in order. -/
def exec : List op → memory → Option memory
  | [], m => some m
  | o :: os, m => (step o m).bind (exec os)

/-- The net reference count the log gives object `a`:
adopted references plus acquires minus releases. -/
def net (a : Nat) (log : List rc_event) : Int :=
  (log.count (rc_event.adopted a) : Int) + log.count (rc_event.ref a) - log.count (rc_event.unref a)

/-- The number of live handles that hold object `a`. -/
def holders (a : Nat) (objects : List (Option ref_ptr)) : Nat :=
  objects.count (some ⟨some a⟩)

/-- The operation involves null pointers only: every handle it reads or overwrites
holds `nullptr`, and so does every raw pointer it is given. -/
def null_only (o : op) (m : memory) : Bool :=
  match o with
  | .construct_default => true
  | .construct_raw data => data.isNone
  | .ref data => data.isNone
  | .construct_copy other => m.at other == some ⟨none⟩
  | .construct_move other => m.at other == some ⟨none⟩
  | .assign_copy self other => m.at self == some ⟨none⟩ && m.at other == some ⟨none⟩
  | .assign_move self other => m.at self == some ⟨none⟩ && m.at other == some ⟨none⟩
  | .reset self data => m.at self == some ⟨none⟩ && data.isNone
  | .destroy self => m.at self == some ⟨none⟩

/-- Every object has as many net references as live handles holding it, and has not
been released more often than it was acquired. -/
def balanced (m : memory) : Prop :=
  ∀ a : Nat, net a m.log = holders a m.objects ∧
    m.log.count (rc_event.unref a) ≤ m.log.count (rc_event.adopted a) + m.log.count (rc_event.ref a)

end utils

/-! ## `saucer::webview` -/

/-- The threads of the program: the one that runs the GTK main loop, and any other. -/
inductive thread where
  | ui
  | other
  deriving DecidableEq, Repr

/-- Modelled from the spec: `window::impl::is_thread_safe()` lives in
`gtk.window.impl.hpp`, which is not among the sources; by section 4.2 it answers
whether the caller is on the affinity (UI) thread. -/
def is_thread_safe (t : thread) : Bool := t == thread.ui

/-- The enumeration `load_time`. -/
inductive load_time where
  | creation
  | ready
  deriving DecidableEq, Repr

/-- The enumeration `web_frame`. -/
inductive web_frame where
  | top
  | all
  deriving DecidableEq, Repr

/-- The enumeration `web_event` (six kinds, `INSTANTIATE_EVENTS(webview, 6, web_event)`). -/
inductive web_event where
  | title_changed
  | load_finished
  | icon_changed
  | load_started
  | url_changed
  | dom_ready
  deriving DecidableEq, Repr

/-- The WebKit enumeration `WebKitLoadEvent`. -/
inductive WebKitLoadEvent where
  | WEBKIT_LOAD_STARTED
  | WEBKIT_LOAD_REDIRECTED
  | WEBKIT_LOAD_COMMITTED
  | WEBKIT_LOAD_FINISHED
  deriving DecidableEq, Repr

/-- The WebKit enumeration `WebKitUserScriptInjectionTime`. -/
inductive WebKitUserScriptInjectionTime where
  | WEBKIT_USER_SCRIPT_INJECT_AT_DOCUMENT_START
  | WEBKIT_USER_SCRIPT_INJECT_AT_DOCUMENT_END
  deriving DecidableEq, Repr

/-- The WebKit enumeration `WebKitUserContentInjectedFrames`. -/
inductive WebKitUserContentInjectedFrames where
  | WEBKIT_USER_CONTENT_INJECT_ALL_FRAMES
  | WEBKIT_USER_CONTENT_INJECT_TOP_FRAME
  deriving DecidableEq, Repr

/-- The object `webkit_user_script_new(code, frames, time, nullptr, nullptr)` creates;
`code` is the C string it was given. -/
structure WebKitUserScript where
  code : String
  frames : WebKitUserContentInjectedFrames
  time : WebKitUserScriptInjectionTime
  deriving DecidableEq, Repr

/-- Modelled from the spec: `requests.hpp` is not among the sources; by section 3 a
request is a tagged union with the variants `resize` (carrying an edge) and `drag`. -/
inductive request where
  | resize (edge : Int)
  | drag
  deriving DecidableEq, Repr

/-- The type `scheme_handler`, a `std::function`: `none` is the empty function,
`some k` the callable `k`. -/
abbrev scheme_handler := Option Nat

/-- The class `scheme_state` as far as `webview` uses it: the member `handler`. -/
structure scheme_state where
  handler : scheme_handler
  deriving DecidableEq, Repr

/-- What the translated code reads from the native `WebKitWebView`: the results of
`webkit_web_view_get_uri`, `webkit_web_view_get_title` (C strings, possibly `NULL`)
and `webkit_web_view_get_favicon` (a `GdkTexture *`, possibly `NULL`). -/
structure WebKitWebView where
  uri : Option String
  title : Option String
  favicon : utils.raw_ptr
  deriving DecidableEq, Repr

/-- A call that leaves the translated code. -/
inductive action where
  | dispatch
  | webkit_web_view_evaluate_javascript (code : String)
  | webkit_web_view_load_uri (uri : String)
  | webkit_web_view_get_uri
  | webkit_web_view_get_title
  | webkit_web_view_get_favicon
  | g_object (e : utils.rc_event)
  | webkit_user_content_manager_add_script (script : WebKitUserScript)
  | webkit_user_content_manager_remove_script (script : Option WebKitUserScript)
  | webkit_web_context_register_uri_scheme (name : String)
  | webkit_security_manager_register_uri_scheme_as_secure (name : String)
  | webkit_security_manager_register_uri_scheme_as_cors_enabled (name : String)
  | g_signal_handler_disconnect (id : Nat)
  | start_resize (edge : Int)
  | start_drag
  | fire (event : web_event) (args : List String)
  | events_clear (event : web_event)
  | events_remove (event : web_event) (id : Nat)
  deriving DecidableEq, Repr

/-- The calls made so far, oldest first, each with the thread that made it. -/
abbrev trace := List (thread × action)

/-- The members of `webview::impl` the translated code uses (reached as `m_impl->...`);
it is the state of a webview. -/
structure impl where
  web_view : WebKitWebView
  dom_loaded : Bool
  pending : List String
  scripts : List (Option WebKitUserScript)
  schemes : List (String × scheme_state)
  context_menu : Bool
  title_changed : Option Nat
  icon_changed : Option Nat
  deriving DecidableEq, Repr

/-- What a member function leaves behind: its return value, the object afterwards and
the calls it made. -/
structure outcome (α : Type) where
  ret : α
  self : impl
  calls : trace

/-- The call `dispatch(callable).get()`: the callable is marshalled onto the UI thread,
runs there, and its result is handed back to the caller. -/
def dispatch {α : Type} (t : thread) (callable : thread → outcome α) : outcome α :=
  let r := callable thread.ui
  { r with calls := (t, action.dispatch) :: r.calls }

/-- The guard idiom at the head of a member function,
`if (!window::m_impl->is_thread_safe()) return dispatch([..] (..) return op(..); ).get();`,
followed by the rest of the function, `body`. The dispatched callable is the member
function itself; on the UI thread its guard does not fire, so it continues with `body`. -/
def guarded {α : Type} (t : thread) (body : thread → outcome α) : outcome α :=
  if !is_thread_safe t then dispatch t body else body t

/-- The ways a translated function can fail: undefined behaviour
(`string_from_nullptr`) or a thrown exception (`filesystem_error`). -/
inductive fault where
  | string_from_nullptr
  | filesystem_error
  deriving DecidableEq, Repr

/-- The argument `s.c_str()` as a callee that takes a NUL-terminated `const char *`
reads it: the characters of `s` before its first NUL character. -/
def c_str (s : String) : String :=
  ⟨s.data.takeWhile fun c => c != Char.ofNat 0⟩

/-- The conversion of a `const char *` to `std::string`, `std::string(const char *)`:
its behaviour is undefined for a null pointer. -/
def std_string : Option String → Except fault String
  | some s => Except.ok s
  | none => Except.error fault.string_from_nullptr

/-- The membership test `schemes.contains(name)`. -/
def schemes_contains (name : String) (schemes : List (String × scheme_state)) : Bool :=
  schemes.any fun e => e.1 == name

/-- The lookup `schemes.at(name)`, `none` when the key is absent. -/
def schemes_at (name : String) (schemes : List (String × scheme_state)) : Option scheme_state :=
  (schemes.find? fun e => e.1 == name).map Prod.snd

/-- The insertion `schemes.emplace(name, state)`: nothing happens when the key is present. -/
def schemes_emplace (name : String) (state : scheme_state)
    (schemes : List (String × scheme_state)) : List (String × scheme_state) :=
  if schemes_contains name schemes then schemes else schemes ++ [(name, state)]

/-- The assignment `schemes.at(name)->handler = nullptr`. -/
def schemes_reset_handler (name : String) :
    List (String × scheme_state) → List (String × scheme_state)
  | [] => []
  | e :: rest =>
      if e.1 == name then (e.1, { e.2 with handler := none }) :: rest
      else e :: schemes_reset_handler name rest

/-- The call `scripts.resize(n)` of `std::vector`: surplus elements are destroyed,
missing ones are value-initialised (null handles). -/
def vector_resize (n : Nat) (scripts : List (Option WebKitUserScript)) :
    List (Option WebKitUserScript) :=
  scripts.take n ++ List.replicate (n - scripts.length) none

/-- The class `icon` as far as `favicon` uses it: the texture handle of its `impl`. -/
structure icon where
  texture : utils.ref_ptr
  deriving DecidableEq, Repr

/-- Modelled from the spec: the static member `g_object_ptr<T>::copy` is declared in
`gtk.utils.hpp`, which is not among the sources; by section 4.1 a copy acquires a
reference on the handle it is given before adopting it, which is what the one acquiring
factory defined in `gtk.utils.inl`, `ref`, does. -/
def g_object_ptr_copy (data : utils.raw_ptr) (log : List utils.rc_event) :
    utils.ref_ptr × List utils.rc_event :=
  utils.ref_ptr.ref data log

namespace webview

/-- The function `webview::execute` after its guard: the code is queued as it is, or
handed to `webkit_web_view_evaluate_javascript` as `code.c_str()` with length `-1`. -/
def execute_body (code : String) (self : impl) (u : thread) : outcome Unit :=
  if !self.dom_loaded then
    { ret := (), self := { self with pending := self.pending ++ [code] }, calls := [] }
  else
    { ret := (), self := self,
      calls := [(u, action.webkit_web_view_evaluate_javascript (c_str code))] }

/-- The function `webview::execute(const std::string &code)`. -/
def execute (t : thread) (code : String) (self : impl) : outcome Unit :=
  guarded t (execute_body code self)

/-- The loop `for (const auto &pending : m_impl->pending) execute(pending);`. -/
def execute_each (t : thread) : List String → impl → outcome Unit
  | [], self => { ret := (), self := self, calls := [] }
  | pending :: rest, self =>
      let r := execute t pending self
      let r2 := execute_each t rest r.self
      { r2 with calls := r.calls ++ r2.calls }

/-- The function `webview::on_message(const std::string &message)`; `parse` is
`requests::parse` (`requests.hpp` is not among the sources). -/
def on_message (parse : String → Option request) (t : thread) (message : String)
    (self : impl) : outcome Bool :=
  if message = "dom_loaded" then
    let self1 := { self with dom_loaded := true }
    let r := execute_each t self1.pending self1
    { ret := true,
      self := { r.self with pending := [] },
      calls := r.calls ++ [(t, action.fire web_event.dom_ready [])] }
  else
    match parse message with
    | none => { ret := false, self := self, calls := [] }
    | some (request.resize edge) =>
        { ret := true, self := self, calls := [(t, action.start_resize edge)] }
    | some request.drag =>
        { ret := true, self := self, calls := [(t, action.start_drag)] }

/-- The function `webview::favicon()`. -/
def favicon (t : thread) (self : impl) : outcome icon :=
  guarded t fun u =>
    let r := g_object_ptr_copy self.web_view.favicon []
    { ret := ⟨r.1⟩, self := self,
      calls := (u, action.webkit_web_view_get_favicon) :: r.2.map fun e => (u, action.g_object e) }

/-- The function `webview::page_title()`:
`return webkit_web_view_get_title(m_impl->web_view);`, converted to `std::string`. -/
def page_title (t : thread) (self : impl) : outcome (Except fault String) :=
  guarded t fun u =>
    { ret := std_string self.web_view.title, self := self,
      calls := [(u, action.webkit_web_view_get_title)] }

/-- The function `webview::url()`. -/
def url (t : thread) (self : impl) : outcome (Except fault String) :=
  guarded t fun u =>
    let rtn := self.web_view.uri
    if rtn.isNone then
      { ret := Except.ok "", self := self, calls := [(u, action.webkit_web_view_get_uri)] }
    else
      { ret := std_string rtn, self := self, calls := [(u, action.webkit_web_view_get_uri)] }

/-- The function `webview::context_menu()`. -/
def context_menu (t : thread) (self : impl) : outcome Bool :=
  guarded t fun _ => { ret := self.context_menu, self := self, calls := [] }

/-- The function `webview::set_context_menu(bool enabled)`. -/
def set_context_menu (t : thread) (enabled : Bool) (self : impl) : outcome Unit :=
  guarded t fun _ => { ret := (), self := { self with context_menu := enabled }, calls := [] }

/-- The function `webview::set_url(const std::string &url)`. -/
def set_url (t : thread) (url : String) (self : impl) : outcome Unit :=
  guarded t fun u =>
    { ret := (), self := self, calls := [(u, action.webkit_web_view_load_uri (c_str url))] }

/-- The function `webview::set_file(const fs::path &file)`; `canonical` is
`fs::canonical(file).string()`, which reads the file system and throws
`filesystem_error` (here `none`) when the file does not exist; the exception leaves
`set_file` before `set_url` is reached. -/
def set_file (canonical : String → Option String) (t : thread) (file : String) (self : impl) :
    outcome (Except fault Unit) :=
  match canonical file with
  | none => { ret := Except.error fault.filesystem_error, self := self, calls := [] }
  | some c =>
      let path := "file://" ++ c
      let r := set_url t path self
      { ret := Except.ok (), self := r.self, calls := r.calls }

/-- The function `webview::serve(const std::string &file, const std::string &scheme)`. -/
def serve (t : thread) (file scheme : String) (self : impl) : outcome Unit :=
  set_url t (scheme ++ ":/" ++ file) self

/-- The function `webview::clear_scripts()`. -/
def clear_scripts (t : thread) (self : impl) : outcome Unit :=
  guarded t fun u =>
    let calls := (self.scripts.drop 2).map fun script =>
      (u, action.webkit_user_content_manager_remove_script script)
    if self.scripts.isEmpty then
      { ret := (), self := self, calls := calls }
    else
      { ret := (), self := { self with scripts := vector_resize 2 self.scripts }, calls := calls }

/-- The function `webview::inject(const std::string &code, load_time time, web_frame frame)`. -/
def inject (t : thread) (code : String) (time : load_time) (frame : web_frame)
    (self : impl) : outcome Unit :=
  guarded t fun u =>
    let webkit_time :=
      if time = load_time.creation
      then WebKitUserScriptInjectionTime.WEBKIT_USER_SCRIPT_INJECT_AT_DOCUMENT_START
      else WebKitUserScriptInjectionTime.WEBKIT_USER_SCRIPT_INJECT_AT_DOCUMENT_END
    let webkit_frame :=
      if frame = web_frame.all
      then WebKitUserContentInjectedFrames.WEBKIT_USER_CONTENT_INJECT_ALL_FRAMES
      else WebKitUserContentInjectedFrames.WEBKIT_USER_CONTENT_INJECT_TOP_FRAME
    let script : WebKitUserScript := ⟨c_str code, webkit_frame, webkit_time⟩
    { ret := (),
      self := { self with scripts := self.scripts ++ [some script] },
      calls := [(u, action.webkit_user_content_manager_add_script script)] }

/-- The function `webview::handle_scheme(const std::string &name, scheme_handler handler)`. -/
def handle_scheme (t : thread) (name : String) (handler : scheme_handler) (self : impl) :
    outcome Unit :=
  guarded t fun u =>
    if schemes_contains name self.schemes then
      { ret := (), self := self, calls := [] }
    else
      let state : scheme_state := ⟨handler⟩
      { ret := (),
        self := { self with schemes := schemes_emplace name state self.schemes },
        calls := [(u, action.webkit_web_context_register_uri_scheme (c_str name)),
                  (u, action.webkit_security_manager_register_uri_scheme_as_secure (c_str name)),
                  (u, action.webkit_security_manager_register_uri_scheme_as_cors_enabled
                        (c_str name))] }

/-- The function `webview::remove_scheme(const std::string &name)`. -/
def remove_scheme (t : thread) (name : String) (self : impl) : outcome Unit :=
  guarded t fun _ =>
    if !schemes_contains name self.schemes then
      { ret := (), self := self, calls := [] }
    else
      { ret := (), self := { self with schemes := schemes_reset_handler name self.schemes },
        calls := [] }

/-- The function `webview::clear(web_event event)`. -/
def clear (t : thread) (event : web_event) (self : impl) : outcome Unit :=
  guarded t fun u =>
    let disconnect : trace :=
      match event with
      | web_event.title_changed =>
          match self.title_changed with
          | some id => [(u, action.g_signal_handler_disconnect id)]
          | none => []
      | web_event.icon_changed =>
          match self.icon_changed with
          | some id => [(u, action.g_signal_handler_disconnect id)]
          | none => []
      | _ => []
    { ret := (), self := self, calls := disconnect ++ [(u, action.events_clear event)] }

/-- The function `webview::remove(web_event event, std::uint64_t id)`:
its whole body is `m_events.remove(event, id);`. -/
def remove (t : thread) (event : web_event) (id : Nat) (self : impl) : outcome Unit :=
  { ret := (), self := self, calls := [(t, action.events_remove event id)] }

/-- The handler `on_load` that the constructor connects to the signal `load-changed`. -/
def on_load (t : thread) (event : WebKitLoadEvent) (self : impl) : outcome Unit :=
  if event = WebKitLoadEvent.WEBKIT_LOAD_COMMITTED then
    let r := url t self
    let arg := match r.ret with
      | Except.ok s => [s]
      | Except.error _ => []
    { ret := (), self := r.self, calls := r.calls ++ [(t, action.fire web_event.url_changed arg)] }
  else if event = WebKitLoadEvent.WEBKIT_LOAD_FINISHED then
    { ret := (), self := self, calls := [(t, action.fire web_event.load_finished [])] }
  else if event ≠ WebKitLoadEvent.WEBKIT_LOAD_STARTED then
    { ret := (), self := self, calls := [] }
  else
    { ret := (), self := { self with dom_loaded := false },
      calls := [(t, action.fire web_event.load_started [])] }

end webview

/-- What the constructor takes from declarations that are not among the sources: the
two bootstrap scripts `impl::inject_script()` and `impl::ready_script`, and the default
argument of the parameter `frame` of `inject`. -/
structure bootstrap where
  inject_script : String
  ready_script : String
  frame : web_frame
  deriving DecidableEq, Repr

/-- Modelled from the spec: the member initialisers of `webview::impl` are in
`webkit.webview.impl.hpp`, which is not among the sources; by sections 3 and 4.4 the
document starts not-ready and the pending queue, the script list and the scheme table
start empty. The context menu flag and the native view are arbitrary. -/
def impl_new (web_view : WebKitWebView) (context_menu : Bool) : impl :=
  { web_view := web_view, dom_loaded := false, pending := [], scripts := [], schemes := [],
    context_menu := context_menu, title_changed := none, icon_changed := none }

/-- The constructor `webview::webview(const options &)`, as far as it touches the
members above: a fresh `impl`, then
`inject(impl::inject_script(), load_time::creation);` and
`inject(std::string(impl::ready_script), load_time::ready);`. -/
def webview.ctor (b : bootstrap) (t : thread) (web_view : WebKitWebView) (context_menu : Bool) :
    outcome Unit :=
  let r1 := webview.inject t b.inject_script load_time.creation b.frame (impl_new web_view context_menu)
  let r2 := webview.inject t b.ready_script load_time.ready b.frame r1.self
  { r2 with calls := r1.calls ++ r2.calls }

/-- One event in the life of a webview: a call of `execute`, a message from the
embedded page, or a `load-changed` signal. -/
inductive step where
  | execute (t : thread) (code : String)
  | on_message (t : thread) (message : String)
  | on_load (t : thread) (event : WebKitLoadEvent)
  deriving DecidableEq, Repr

/-- The effect of one event. -/
def step.apply (parse : String → Option request) (e : step) (self : impl) : outcome Unit :=
  match e with
  | step.execute t code => webview.execute t code self
  | step.on_message t message =>
      let r := webview.on_message parse t message self
      { ret := (), self := r.self, calls := r.calls }
  | step.on_load t event => webview.on_load t event self

/-- The effect of a sequence of events, oldest first. -/
def run (parse : String → Option request) : List step → impl → outcome Unit
  | [], self => { ret := (), self := self, calls := [] }
  | e :: es, self =>
      let r := step.apply parse e self
      let r2 := run parse es r.self
      { r2 with calls := r.calls ++ r2.calls }

/-- The codes handed to `webkit_web_view_evaluate_javascript`, in order. -/
def evaluated (calls : trace) : List String :=
  calls.filterMap fun c =>
    match c.2 with
    | action.webkit_web_view_evaluate_javascript code => some code
    | _ => none

/-- The codes passed to `execute` by a sequence of events, in order. -/
def submitted (es : List step) : List String :=
  es.filterMap fun e =>
    match e with
    | step.execute _ code => some code
    | _ => none

/-- The event is the arrival of the sentinel message `dom_loaded`. -/
def step.is_flush (e : step) : Bool :=
  match e with
  | step.on_message _ message => message == "dom_loaded"
  | _ => false

/-- The calls of a trace that were made off the UI thread, `dispatch` apart. -/
def off_thread (calls : trace) : trace :=
  calls.filter fun c => c.1 != thread.ui && c.2 != action.dispatch

end saucer

/-! # Properties -/

namespace saucer

namespace utils

/-! ## Counting lemmas -/

theorem count_set_add {α : Type} [BEq α] [LawfulBEq α] (l : List α) (i : Nat) (x y v : α)
    (h : l[i]? = some y) :
    (l.set i x).count v + (if y == v then 1 else 0) = l.count v + (if x == v then 1 else 0) := by
  induction l generalizing i with
  | nil => simp at h
  | cons b l ih =>
    cases i with
    | zero =>
      simp at h
      subst h
      simp only [List.set_cons_zero, List.count_cons]
      omega
    | succ i =>
      simp at h
      have := ih i h
      simp only [List.set_cons_succ, List.count_cons]
      omega

theorem at_eq_some {m : memory} {i : Nat} {h : ref_ptr} (hm : m.at i = some h) :
    m.objects[i]? = some (some h) := by
  unfold memory.at at hm
  cases hg : m.objects[i]? with
  | none => simp [hg] at hm
  | some v => cases v <;> simp_all

theorem net_append (a : Nat) (log : List rc_event) (e : rc_event) :
    net a (log ++ [e]) = net a log + (if e = rc_event.adopted a then 1 else 0)
      + (if e = rc_event.ref a then 1 else 0) - (if e = rc_event.unref a then 1 else 0) := by
  unfold net
  simp only [List.count_append, List.count_singleton, Nat.cast_add]
  cases e with
  | adopted b =>
    by_cases hb : b = a
    · simp [hb]; omega
    · simp [hb]
  | ref b =>
    by_cases hb : b = a
    · simp [hb]; omega
    · simp [hb]
  | unref b =>
    by_cases hb : b = a
    · simp [hb]; omega
    · simp [hb]

theorem net_perform_ref (a : Nat) (data : raw_ptr) (log : List rc_event) :
    net a (perform rc_event.ref data log).2 = net a log + (if data = some a then 1 else 0) := by
  cases data with
  | none => simp [perform]
  | some b =>
    simp only [perform, net_append]
    by_cases hb : b = a <;> simp [hb]

theorem net_perform_unref (a : Nat) (data : raw_ptr) (log : List rc_event) :
    net a (perform rc_event.unref data log).2 = net a log - (if data = some a then 1 else 0) := by
  cases data with
  | none => simp [perform]
  | some b =>
    simp only [perform, net_append]
    by_cases hb : b = a <;> simp [hb]

theorem net_adopt (a : Nat) (data : raw_ptr) (log : List rc_event) :
    net a (adopt data log) = net a log + (if data = some a then 1 else 0) := by
  cases data with
  | none => simp [adopt]
  | some b =>
    simp only [adopt, net_append]
    by_cases hb : b = a <;> simp [hb]

theorem holders_append (a : Nat) (objects : List (Option ref_ptr)) (h : Option ref_ptr) :
    holders a (objects ++ [h]) = holders a objects + (if h = some ⟨some a⟩ then 1 else 0) := by
  simp [holders, List.count_append, List.count_singleton]

theorem holders_set (a : Nat) (objects : List (Option ref_ptr)) (i : Nat) (x y : Option ref_ptr)
    (h : objects[i]? = some y) :
    (holders a (objects.set i x) : Int) =
      holders a objects + (if x = some ⟨some a⟩ then 1 else 0) - (if y = some ⟨some a⟩ then 1 else 0) := by
  have := count_set_add objects i x y (some ⟨some a⟩) h
  unfold holders
  by_cases hx : x = some ⟨some a⟩ <;> by_cases hy : y = some ⟨some a⟩ <;>
    simp only [hx, hy, if_true, if_false, beq_self_eq_true, beq_iff_eq] at this ⊢ <;> omega

theorem step_net_holders (o : op) (m m' : memory) (h : step o m = some m')
    (hi : ∀ a, net a m.log = holders a m.objects) (a : Nat) :
    net a m'.log = holders a m'.objects := by
  have hia := hi a
  cases o with
  | construct_default =>
    simp only [step, Option.some.injEq] at h
    subst h
    simp [holders_append, ref_ptr.default_ctor, hia]
  | construct_raw data =>
    simp only [step, Option.some.injEq] at h
    subst h
    simp only [net_adopt, holders_append, ref_ptr.raw_ctor, hia, Option.some.injEq,
      ref_ptr.mk.injEq]
    split <;> simp
  | ref data =>
    simp only [step, Option.some.injEq] at h
    subst h
    have he : (perform rc_event.ref data m.log).1 = data := by cases data <;> rfl
    simp only [ref_ptr.ref, net_perform_ref, holders_append, ref_ptr.raw_ctor, hia,
      Option.some.injEq, ref_ptr.mk.injEq, he]
    by_cases hd : data = some a <;> simp [hd]
  | construct_copy other =>
    simp only [step, Option.map_eq_some'] at h
    obtain ⟨ho, _, rfl⟩ := h
    have he : (perform rc_event.ref ho.m_data m.log).1 = ho.m_data := by
      cases ho.m_data <;> rfl
    simp only [ref_ptr.copy_ctor, net_perform_ref, holders_append, hia,
      Option.some.injEq, ref_ptr.mk.injEq, he]
    by_cases hd : ho.m_data = some a <;> simp [hd]
  | construct_move other =>
    simp only [step, Option.map_eq_some'] at h
    obtain ⟨ho, hat, rfl⟩ := h
    have hg := at_eq_some hat
    simp only [ref_ptr.move_ctor, ref_ptr.exchange_null, holders_append, Nat.cast_add,
      holders_set a m.objects other _ _ hg, hia, Option.some.injEq, ref_ptr.mk.injEq]
    cases ho with
    | mk d => by_cases hd : d = some a <;> simp [hd]
  | assign_copy self other =>
    simp only [step, Option.bind_eq_some, Option.map_eq_some'] at h
    obtain ⟨hs, hats, ho, _, rfl⟩ := h
    have hg := at_eq_some hats
    unfold assign_copy
    split
    · simp only [ref_ptr.reset, net_perform_unref, net_perform_ref,
        holders_set a m.objects self _ _ hg, hia, Option.some.injEq, ref_ptr.mk.injEq]
      cases hs with
      | mk d =>
        cases ho with
        | mk e =>
          have he : (perform rc_event.ref e m.log).1 = e := by cases e <;> rfl
          simp only [he]
          by_cases hd : d = some a <;> by_cases h2 : e = some a <;> simp [hd, h2]
    · exact hia
  | assign_move self other =>
    simp only [step, Option.bind_eq_some, Option.map_eq_some'] at h
    obtain ⟨hs, hats, ho, hato, rfl⟩ := h
    have hg := at_eq_some hats
    have hgo := at_eq_some hato
    unfold assign_move
    split
    · rename_i hne
      have hg2 : (m.objects.set other (some ⟨none⟩))[self]? = some (some hs) := by
        rw [List.getElem?_set_ne (Ne.symm hne)]
        exact hg
      have e1 := holders_set a (m.objects.set other (some ⟨none⟩)) self (some ⟨ho.m_data⟩) _ hg2
      have e2 := holders_set a m.objects other (some ⟨none⟩) _ hgo
      simp only [ref_ptr.reset, net_perform_unref, ref_ptr.exchange_null, e1, e2, hia,
        Option.some.injEq, ref_ptr.mk.injEq]
      cases hs with
      | mk d =>
        cases ho with
        | mk e => by_cases hd : d = some a <;> by_cases h2 : e = some a <;> simp [hd, h2]
    · exact hia
  | reset self data =>
    simp only [step, Option.map_eq_some'] at h
    obtain ⟨hs, hats, rfl⟩ := h
    have hg := at_eq_some hats
    simp only [ref_ptr.reset, net_perform_unref, net_adopt,
      holders_set a m.objects self _ _ hg, hia, Option.some.injEq, ref_ptr.mk.injEq]
    cases hs with
    | mk d => by_cases hd : d = some a <;> by_cases h2 : data = some a <;> simp [hd, h2]
  | destroy self =>
    simp only [step, Option.map_eq_some'] at h
    obtain ⟨hs, hats, rfl⟩ := h
    have hg := at_eq_some hats
    simp only [ref_ptr.dtor, ref_ptr.reset, net_perform_unref,
      holders_set a m.objects self _ _ hg, hia, Option.some.injEq, ref_ptr.mk.injEq]
    cases hs with
    | mk d => by_cases hd : d = some a <;> simp [hd]

theorem exec_net_holders (ops : List op) (m m' : memory) (h : exec ops m = some m')
    (hi : ∀ a, net a m.log = holders a m.objects) (a : Nat) :
    net a m'.log = holders a m'.objects := by
  induction ops generalizing m with
  | nil =>
    simp only [exec, Option.some.injEq] at h
    subst h
    exact hi a
  | cons o os ih =>
    simp only [exec, Option.bind_eq_some] at h
    obtain ⟨m1, h1, h2⟩ := h
    exact ih m1 h2 (step_net_holders o m m1 h1 hi)

theorem exec_take (ops : List op) (n : Nat) (m m' : memory) (h : exec ops m = some m') :
    ∃ m'', exec (ops.take n) m = some m'' := by
  induction ops generalizing m n with
  | nil => exact ⟨m, by simp [exec]⟩
  | cons o os ih =>
    cases n with
    | zero => exact ⟨m, by simp [exec]⟩
    | succ n =>
      simp only [exec, Option.bind_eq_some] at h
      obtain ⟨m1, h1, h2⟩ := h
      obtain ⟨m2, h3⟩ := ih n m1 h2
      exact ⟨m2, by simp [exec, h1, h3]⟩

theorem balanced_of_net_holders (m : memory)
    (hi : ∀ a, net a m.log = holders a m.objects) : balanced m := by
  intro a
  refine ⟨hi a, ?_⟩
  have := hi a
  unfold net at this
  omega

theorem step_null_only (o : op) (m m' : memory) (hn : null_only o m = true)
    (h : step o m = some m') : m'.log = m.log := by
  cases o with
  | construct_default =>
    simp only [step, Option.some.injEq] at h
    subst h
    rfl
  | construct_raw data =>
    simp only [step, Option.some.injEq] at h
    subst h
    cases data <;> simp_all [null_only, adopt]
  | ref data =>
    simp only [step, Option.some.injEq] at h
    subst h
    cases data <;> simp_all [null_only, ref_ptr.ref, perform]
  | construct_copy other =>
    simp only [null_only, beq_iff_eq] at hn
    simp only [step, hn, Option.map_some', Option.some.injEq] at h
    subst h
    rfl
  | construct_move other =>
    simp only [null_only, beq_iff_eq] at hn
    simp only [step, hn, Option.map_some', Option.some.injEq] at h
    subst h
    rfl
  | assign_copy self other =>
    simp only [null_only, Bool.and_eq_true, beq_iff_eq] at hn
    simp only [step, hn.1, hn.2, Option.map_some', Option.some_bind, Option.some.injEq] at h
    subst h
    unfold assign_copy
    split <;> rfl
  | assign_move self other =>
    simp only [null_only, Bool.and_eq_true, beq_iff_eq] at hn
    simp only [step, hn.1, hn.2, Option.map_some', Option.some_bind, Option.some.injEq] at h
    subst h
    unfold assign_move
    split <;> rfl
  | reset self data =>
    simp only [null_only, Bool.and_eq_true, beq_iff_eq, Option.isNone_iff_eq_none] at hn
    simp only [step, hn.1, hn.2, Option.map_some', Option.some.injEq] at h
    subst h
    rfl
  | destroy self =>
    simp only [null_only, beq_iff_eq] at hn
    simp only [step, hn, Option.map_some', Option.some.injEq] at h
    subst h
    rfl

/-! ## The handle invariant -/

/-- C6: for every program of handle operations (adopting construction, `ref`, copy and
move construction, copy and move assignment with self-assignment included, `reset`,
destruction) that starts with no handles, after each operation every native object has
exactly as many net references (adopted + acquired - released) as there are live handles
holding it, and so was never released more often than acquired; and an operation that
involves null pointers only performs no acquire and no release. -/
theorem ref_ptr_net_count_invariant (ops : List op) (m : memory)
    (h : exec ops memory.empty = some m) :
    (∀ n, ∃ m', exec (ops.take n) memory.empty = some m' ∧ balanced m') ∧
    (∀ o m', null_only o m = true → step o m = some m' → m'.log = m.log) := by
  constructor
  · intro n
    obtain ⟨m', hm'⟩ := exec_take ops n memory.empty m h
    refine ⟨m', hm', balanced_of_net_holders m' ?_⟩
    intro a
    exact exec_net_holders (ops.take n) memory.empty m' hm' (fun b => by simp [memory.empty, net, holders]) a
  · intro o m' hn hs
    exact step_null_only o m m' hn hs

/-- The invariant of C6 at a program that uses every operation, self-assignment and
null handles included. -/
theorem ref_ptr_net_count_invariant_witness :
    exec [op.construct_raw (some 7), op.construct_copy 0, op.construct_default,
        op.assign_move 2 0, op.assign_copy 2 2, op.assign_copy 0 1, op.reset 1 none,
        op.destroy 2, op.construct_move 0, op.ref (some 9), op.destroy 4] memory.empty
      = some ⟨[some ⟨none⟩, some ⟨none⟩, none, some ⟨some 7⟩, none],
          [rc_event.adopted 7, rc_event.ref 7, rc_event.ref 7, rc_event.unref 7,
           rc_event.unref 7, rc_event.ref 9, rc_event.unref 9]⟩ ∧
    ((∀ n, ∃ m', exec (List.take n [op.construct_raw (some 7), op.construct_copy 0,
        op.construct_default, op.assign_move 2 0, op.assign_copy 2 2, op.assign_copy 0 1,
        op.reset 1 none, op.destroy 2, op.construct_move 0, op.ref (some 9), op.destroy 4])
        memory.empty = some m' ∧ balanced m') ∧
     (∀ o m', null_only o ⟨[some ⟨none⟩, some ⟨none⟩, none, some ⟨some 7⟩, none],
          [rc_event.adopted 7, rc_event.ref 7, rc_event.ref 7, rc_event.unref 7,
           rc_event.unref 7, rc_event.ref 9, rc_event.unref 9]⟩ = true →
        step o ⟨[some ⟨none⟩, some ⟨none⟩, none, some ⟨some 7⟩, none],
          [rc_event.adopted 7, rc_event.ref 7, rc_event.ref 7, rc_event.unref 7,
           rc_event.unref 7, rc_event.ref 9, rc_event.unref 9]⟩ = some m' →
        m'.log = [rc_event.adopted 7, rc_event.ref 7, rc_event.ref 7, rc_event.unref 7,
           rc_event.unref 7, rc_event.ref 9, rc_event.unref 9])) :=
  ⟨by decide, ref_ptr_net_count_invariant _ _ (by decide)⟩

/-! ## Moves -/

/-- C7, as stated, fails for move assignment: moving the handle at address 1 (holding
object 2) into the handle at address 0 (holding object 1) calls `Unref` on object 1. -/
theorem move_assign_releases_destination :
    step (op.assign_move 0 1)
        ⟨[some ⟨some 1⟩, some ⟨some 2⟩], [rc_event.adopted 1, rc_event.adopted 2]⟩
      = some ⟨[some ⟨some 2⟩, some ⟨none⟩],
          [rc_event.adopted 1, rc_event.adopted 2, rc_event.unref 1]⟩ ∧
    ¬ (∀ (m m' : memory) (self other : Nat),
        step (op.assign_move self other) m = some m' → m'.log = m.log) := by
  refine ⟨by decide, fun hall => ?_⟩
  have := hall ⟨[some ⟨some 1⟩, some ⟨some 2⟩], [rc_event.adopted 1, rc_event.adopted 2]⟩
    ⟨[some ⟨some 2⟩, some ⟨none⟩], [rc_event.adopted 1, rc_event.adopted 2, rc_event.unref 1]⟩
    0 1 (by decide)
  revert this
  decide

/-- C7 (amended): move construction hands the source's pointer to the new handle and
leaves the source null without any acquire or release; move assignment between two
distinct handles hands the source's pointer to the destination, leaves the source null,
performs no acquire, and calls `Unref` exactly once on the pointer the destination held
before (not at all when that was null); move assignment of a handle to itself changes
nothing. -/
theorem move_transfers_handle (m : memory) (self other : Nat) (hs ho : ref_ptr)
    (hats : m.at self = some hs) (hato : m.at other = some ho) :
    ref_ptr.move_ctor ho = (⟨ho.m_data⟩, ⟨none⟩) ∧
    (∃ m', step (op.construct_move other) m = some m' ∧ m'.log = m.log ∧
      m'.at other = some ⟨none⟩ ∧ m'.at m.objects.length = some ⟨ho.m_data⟩) ∧
    (self ≠ other → ∃ m', step (op.assign_move self other) m = some m' ∧
      m'.at self = some ⟨ho.m_data⟩ ∧ m'.at other = some ⟨none⟩ ∧
      m'.log = (match hs.m_data with
                | some q => m.log ++ [rc_event.unref q]
                | none => m.log)) ∧
    step (op.assign_move self self) m = some m := by
  have hgs := at_eq_some hats
  have hgo := at_eq_some hato
  have hls : self < m.objects.length := by
    rcases Nat.lt_or_ge self m.objects.length with h | h
    · exact h
    · rw [List.getElem?_eq_none h] at hgs
      simp at hgs
  have hlo : other < m.objects.length := by
    rcases Nat.lt_or_ge other m.objects.length with h | h
    · exact h
    · rw [List.getElem?_eq_none h] at hgo
      simp at hgo
  refine ⟨rfl, ?_, ?_, ?_⟩
  · refine ⟨⟨m.objects.set other (some ⟨none⟩) ++ [some ⟨ho.m_data⟩], m.log⟩, ?_, rfl, ?_, ?_⟩
    · simp [step, hato, ref_ptr.move_ctor, ref_ptr.exchange_null]
    · simp [memory.at, List.getElem?_append, hlo]
    · simp [memory.at, List.getElem?_append]
  · intro hne
    refine ⟨assign_move self other hs ho m, ?_, ?_, ?_, ?_⟩
    · simp [step, hats, hato]
    · simp [assign_move, hne, memory.at, ref_ptr.reset, ref_ptr.exchange_null, hls]
    · simp [assign_move, hne, memory.at, ref_ptr.reset, ref_ptr.exchange_null, hlo,
        List.getElem?_set_ne hne]
    · cases hd : hs.m_data <;> simp [assign_move, hne, ref_ptr.reset, perform, hd]
  · simp [step, hats, assign_move]

/-- The amended C7 at a destination that holds object 1 and a source that holds
object 2. -/
theorem move_transfers_handle_witness :
    ref_ptr.move_ctor ⟨some 2⟩ = (⟨some 2⟩, ⟨none⟩) ∧
    (∃ m', step (op.construct_move 1)
        ⟨[some ⟨some 1⟩, some ⟨some 2⟩], [rc_event.adopted 1, rc_event.adopted 2]⟩ = some m' ∧
      m'.log = [rc_event.adopted 1, rc_event.adopted 2] ∧
      m'.at 1 = some ⟨none⟩ ∧ m'.at 2 = some ⟨some 2⟩) ∧
    ((0 : Nat) ≠ 1 → ∃ m', step (op.assign_move 0 1)
        ⟨[some ⟨some 1⟩, some ⟨some 2⟩], [rc_event.adopted 1, rc_event.adopted 2]⟩ = some m' ∧
      m'.at 0 = some ⟨some 2⟩ ∧ m'.at 1 = some ⟨none⟩ ∧
      m'.log = [rc_event.adopted 1, rc_event.adopted 2, rc_event.unref 1]) ∧
    step (op.assign_move 0 0)
        ⟨[some ⟨some 1⟩, some ⟨some 2⟩], [rc_event.adopted 1, rc_event.adopted 2]⟩
      = some ⟨[some ⟨some 1⟩, some ⟨some 2⟩], [rc_event.adopted 1, rc_event.adopted 2]⟩ :=
  move_transfers_handle
    ⟨[some ⟨some 1⟩, some ⟨some 2⟩], [rc_event.adopted 1, rc_event.adopted 2]⟩ 0 1
    ⟨some 1⟩ ⟨some 2⟩ (by decide) (by decide)

end utils

/-! ## The pending queue -/

theorem evaluated_append (a b : trace) : evaluated (a ++ b) = evaluated a ++ evaluated b := by
  simp [evaluated, List.filterMap_append]

theorem execute_not_ready (t : thread) (code : String) (s : impl) (hn : s.dom_loaded = false) :
    (webview.execute t code s).self = { s with pending := s.pending ++ [code] } ∧
    evaluated (webview.execute t code s).calls = [] := by
  cases t <;>
    simp [webview.execute, guarded, is_thread_safe, dispatch, webview.execute_body, hn, evaluated]

theorem c_str_of_no_nul (c : String) (h : ∀ ch ∈ c.data, ch ≠ Char.ofNat 0) : c_str c = c := by
  have e : (c.data.takeWhile fun ch => ch != Char.ofNat 0) = c.data := by
    rw [List.takeWhile_eq_self_iff]
    intro ch hch
    simpa using h ch hch
  unfold c_str
  rw [e]

theorem map_c_str_of_no_nul (cs : List String)
    (h : ∀ c ∈ cs, ∀ ch ∈ c.data, ch ≠ Char.ofNat 0) : cs.map c_str = cs := by
  induction cs with
  | nil => rfl
  | cons c cs ih =>
    rw [List.map_cons, c_str_of_no_nul c (h c (List.mem_cons_self c cs)),
      ih (fun x hx => h x (List.mem_cons_of_mem c hx))]

theorem execute_ready (t : thread) (code : String) (s : impl) (hr : s.dom_loaded = true) :
    (webview.execute t code s).self = s ∧
    evaluated (webview.execute t code s).calls = [c_str code] := by
  cases t <;>
    simp [webview.execute, guarded, is_thread_safe, dispatch, webview.execute_body, hr, evaluated]

theorem execute_each_ready (t : thread) (ps : List String) (s : impl) (hr : s.dom_loaded = true) :
    (webview.execute_each t ps s).self = s ∧
    evaluated (webview.execute_each t ps s).calls = ps.map c_str := by
  induction ps generalizing s with
  | nil => simp [webview.execute_each, evaluated]
  | cons p ps ih =>
    obtain ⟨h1, h2⟩ := execute_ready t p s hr
    have h3 := ih (webview.execute t p s).self (by rw [h1]; exact hr)
    simp only [webview.execute_each, evaluated_append, h2, h3.2]
    exact ⟨by rw [h3.1, h1], rfl⟩

theorem on_message_flush (parse : String → Option request) (t : thread) (s : impl) :
    (webview.on_message parse t "dom_loaded" s).ret = true ∧
    (webview.on_message parse t "dom_loaded" s).self = { s with dom_loaded := true, pending := [] } ∧
    evaluated (webview.on_message parse t "dom_loaded" s).calls = s.pending.map c_str := by
  have h := execute_each_ready t s.pending { s with dom_loaded := true } rfl
  simp only [webview.on_message, if_true, evaluated_append, h.1, h.2]
  simp [evaluated]

theorem on_message_other (parse : String → Option request) (t : thread) (message : String)
    (s : impl) (hm : message ≠ "dom_loaded") :
    (webview.on_message parse t message s).self = s ∧
    evaluated (webview.on_message parse t message s).calls = [] := by
  simp only [webview.on_message, hm, if_false]
  cases parse message with
  | none => simp [evaluated]
  | some r => cases r <;> simp [evaluated]

theorem on_load_pending (t : thread) (event : WebKitLoadEvent) (s : impl) :
    (webview.on_load t event s).self.pending = s.pending ∧
    ((webview.on_load t event s).self.dom_loaded = true → s.dom_loaded = true) ∧
    evaluated (webview.on_load t event s).calls = [] := by
  cases event <;> cases t <;>
    simp [webview.on_load, webview.url, guarded, is_thread_safe, dispatch, evaluated] <;>
    split <;> simp

theorem step_not_ready (parse : String → Option request) (e : step) (s : impl)
    (hn : s.dom_loaded = false) (hf : e.is_flush = false) :
    (step.apply parse e s).self.dom_loaded = false ∧
    (step.apply parse e s).self.pending = s.pending ++ submitted [e] ∧
    evaluated (step.apply parse e s).calls = [] := by
  cases e with
  | execute t code =>
    obtain ⟨h1, h2⟩ := execute_not_ready t code s hn
    simp only [step.apply, h1, h2]
    simp [submitted, hn]
  | on_message t message =>
    have hm : message ≠ "dom_loaded" := by simpa [step.is_flush] using hf
    obtain ⟨h1, h2⟩ := on_message_other parse t message s hm
    simp only [step.apply, h1, h2]
    simp [submitted, hn]
  | on_load t event =>
    obtain ⟨h1, h2, h3⟩ := on_load_pending t event s
    simp only [step.apply, h1, h3]
    refine ⟨?_, by simp [submitted], trivial⟩
    cases hd : (webview.on_load t event s).self.dom_loaded with
    | false => rfl
    | true => rw [h2 hd] at hn; exact hn

theorem submitted_cons (e : step) (es : List step) :
    submitted (e :: es) = submitted [e] ++ submitted es := by
  cases e <;> simp [submitted]

theorem run_not_ready (parse : String → Option request) (es : List step) (s : impl)
    (hn : s.dom_loaded = false) (hf : ∀ e ∈ es, step.is_flush e = false) :
    (run parse es s).self.dom_loaded = false ∧
    (run parse es s).self.pending = s.pending ++ submitted es ∧
    evaluated (run parse es s).calls = [] := by
  induction es generalizing s with
  | nil => simp [run, submitted, evaluated, hn]
  | cons e es ih =>
    obtain ⟨h1, h2, h3⟩ := step_not_ready parse e s hn (hf e (List.mem_cons_self e es))
    obtain ⟨k1, k2, k3⟩ := ih (step.apply parse e s).self h1
      (fun x hx => hf x (List.mem_cons_of_mem e hx))
    simp only [run, evaluated_append, h3, k3, k1, k2, h2, submitted_cons e es]
    simp

/-- C1, as stated, fails for a code with an embedded NUL character: queued as a whole,
the code reaches `webkit_web_view_evaluate_javascript` as `code.c_str()` with length
`-1`, so the flush evaluates only what precedes the NUL. -/
theorem flush_cuts_code_at_nul :
    (run (fun _ => none) [step.execute thread.ui "a\x00b"]
        (impl_new ⟨none, none, none⟩ true)).self.pending = ["a\x00b"] ∧
    evaluated (webview.on_message (fun _ => none) thread.ui "dom_loaded"
      (run (fun _ => none) [step.execute thread.ui "a\x00b"]
        (impl_new ⟨none, none, none⟩ true)).self).calls = ["a"] ∧
    evaluated (webview.on_message (fun _ => none) thread.ui "dom_loaded"
      (run (fun _ => none) [step.execute thread.ui "a\x00b"]
        (impl_new ⟨none, none, none⟩ true)).self).calls
      ≠ submitted [step.execute thread.ui "a\x00b"] := by
  decide

/-- C1 (amended): take a webview that is not-ready (`dom_loaded = false`) and any
sequence of events without the sentinel message, among them the calls `execute(c1)`,
..., `execute(cn)` from any threads. None of these events evaluates any code, the
document stays not-ready and the codes are queued whole, in order. The sentinel message
`dom_loaded` then returns true, hands the codes that were already queued followed by
`c1, ..., cn` to the engine, each once and in submission order, each as the C string
`code.c_str()` (the code up to its first NUL character), and leaves the queue empty.
When no queued code contains a NUL character, what is evaluated is exactly the queued
codes; the queue is empty after construction and after every flush, so there these are
exactly `c1, ..., cn`. -/
theorem pending_scripts_run_once_in_order (parse : String → Option request) (s : impl)
    (es : List step) (t : thread)
    (hn : s.dom_loaded = false) (hf : ∀ e ∈ es, step.is_flush e = false) :
    evaluated (run parse es s).calls = [] ∧
    (run parse es s).self.dom_loaded = false ∧
    (run parse es s).self.pending = s.pending ++ submitted es ∧
    evaluated (webview.on_message parse t "dom_loaded" (run parse es s).self).calls
      = (s.pending ++ submitted es).map c_str ∧
    ((∀ c ∈ s.pending ++ submitted es, ∀ ch ∈ c.data, ch ≠ Char.ofNat 0) →
      evaluated (webview.on_message parse t "dom_loaded" (run parse es s).self).calls
        = s.pending ++ submitted es) ∧
    (webview.on_message parse t "dom_loaded" (run parse es s).self).self.pending = [] ∧
    (webview.on_message parse t "dom_loaded" (run parse es s).self).self.dom_loaded = true ∧
    (webview.on_message parse t "dom_loaded" (run parse es s).self).ret = true := by
  obtain ⟨h1, h2, h3⟩ := run_not_ready parse es s hn hf
  obtain ⟨k1, k2, k3⟩ := on_message_flush parse t (run parse es s).self
  refine ⟨h3, h1, h2, ?_, ?_, ?_, ?_, k1⟩
  · rw [k3, h2]
  · intro hnul
    rw [k3, h2, map_c_str_of_no_nul _ hnul]
  · rw [k2]
  · rw [k2]

/-- The amended C1 at a fresh webview: `execute("a\x00b")` from another thread, a
load-started signal and `execute("b")`, then the flush, which evaluates `a` and `b`. -/
theorem pending_scripts_run_once_in_order_witness :
    (impl_new ⟨none, none, none⟩ true).dom_loaded = false ∧
    (∀ e ∈ [step.execute thread.other "a\x00b",
            step.on_load thread.ui WebKitLoadEvent.WEBKIT_LOAD_STARTED,
            step.execute thread.ui "b"], step.is_flush e = false) ∧
    (evaluated (run (fun _ => none) [step.execute thread.other "a\x00b",
        step.on_load thread.ui WebKitLoadEvent.WEBKIT_LOAD_STARTED,
        step.execute thread.ui "b"] (impl_new ⟨none, none, none⟩ true)).calls = [] ∧
     (run (fun _ => none) [step.execute thread.other "a\x00b",
        step.on_load thread.ui WebKitLoadEvent.WEBKIT_LOAD_STARTED,
        step.execute thread.ui "b"] (impl_new ⟨none, none, none⟩ true)).self.pending
        = ["a\x00b", "b"] ∧
     evaluated (webview.on_message (fun _ => none) thread.ui "dom_loaded"
       (run (fun _ => none) [step.execute thread.other "a\x00b",
        step.on_load thread.ui WebKitLoadEvent.WEBKIT_LOAD_STARTED,
        step.execute thread.ui "b"] (impl_new ⟨none, none, none⟩ true)).self).calls
        = [c_str "a\x00b", c_str "b"] ∧
     c_str "a\x00b" = "a" ∧ c_str "b" = "b" ∧
     (webview.on_message (fun _ => none) thread.ui "dom_loaded"
       (run (fun _ => none) [step.execute thread.other "a\x00b",
        step.on_load thread.ui WebKitLoadEvent.WEBKIT_LOAD_STARTED,
        step.execute thread.ui "b"] (impl_new ⟨none, none, none⟩ true)).self).self.pending = [] ∧
     (webview.on_message (fun _ => none) thread.ui "dom_loaded"
       (run (fun _ => none) [step.execute thread.other "a\x00b",
        step.on_load thread.ui WebKitLoadEvent.WEBKIT_LOAD_STARTED,
        step.execute thread.ui "b"] (impl_new ⟨none, none, none⟩ true)).self).self.dom_loaded = true ∧
     (webview.on_message (fun _ => none) thread.ui "dom_loaded"
       (run (fun _ => none) [step.execute thread.other "a\x00b",
        step.on_load thread.ui WebKitLoadEvent.WEBKIT_LOAD_STARTED,
        step.execute thread.ui "b"] (impl_new ⟨none, none, none⟩ true)).self).ret = true) :=
  have h := pending_scripts_run_once_in_order (fun _ => none) (impl_new ⟨none, none, none⟩ true)
      [step.execute thread.other "a\x00b",
       step.on_load thread.ui WebKitLoadEvent.WEBKIT_LOAD_STARTED,
       step.execute thread.ui "b"] thread.ui rfl (by decide)
  ⟨rfl, by decide, h.1, h.2.2.1, h.2.2.2.1, by decide, by decide,
    h.2.2.2.2.2.1, h.2.2.2.2.2.2.1, h.2.2.2.2.2.2.2⟩

/-! ## The life cycle of the pending queue -/

theorem ctor_self (b : bootstrap) (t : thread) (web_view : WebKitWebView) (context_menu : Bool) :
    (webview.ctor b t web_view context_menu).self.pending = [] ∧
    (webview.ctor b t web_view context_menu).self.dom_loaded = false ∧
    (webview.ctor b t web_view context_menu).self.schemes = [] ∧
    ∃ b1 b2, (webview.ctor b t web_view context_menu).self.scripts = [some b1, some b2] := by
  cases t <;>
    simp [webview.ctor, webview.inject, guarded, is_thread_safe, dispatch, impl_new]

theorem step_ready_empty (parse : String → Option request) (e : step) (s : impl)
    (hi : s.dom_loaded = true → s.pending = []) :
    (step.apply parse e s).self.dom_loaded = true → (step.apply parse e s).self.pending = [] := by
  cases e with
  | execute t code =>
    cases hd : s.dom_loaded with
    | false =>
      obtain ⟨h1, _⟩ := execute_not_ready t code s hd
      simp [step.apply, h1, hd]
    | true =>
      obtain ⟨h1, _⟩ := execute_ready t code s hd
      simp only [step.apply, h1]
      exact fun _ => hi hd
  | on_message t message =>
    by_cases hm : message = "dom_loaded"
    · subst hm
      obtain ⟨_, h2, _⟩ := on_message_flush parse t s
      simp [step.apply, h2]
    · obtain ⟨h1, _⟩ := on_message_other parse t message s hm
      simp only [step.apply, h1]
      exact hi
  | on_load t event =>
    obtain ⟨h1, h2, _⟩ := on_load_pending t event s
    simp only [step.apply, h1]
    exact fun h => hi (h2 h)

theorem run_ready_empty (parse : String → Option request) (es : List step) (s : impl)
    (hi : s.dom_loaded = true → s.pending = []) :
    (run parse es s).self.dom_loaded = true → (run parse es s).self.pending = [] := by
  induction es generalizing s with
  | nil => simpa [run] using hi
  | cons e es ih =>
    simp only [run]
    exact ih (step.apply parse e s).self (step_ready_empty parse e s hi)

theorem step_grows_only_not_ready (parse : String → Option request) (e : step) (s : impl)
    (hg : s.pending.length < (step.apply parse e s).self.pending.length) :
    s.dom_loaded = false ∧ ∃ t code, e = step.execute t code := by
  cases e with
  | execute t code =>
    cases hd : s.dom_loaded with
    | false => exact ⟨rfl, t, code, rfl⟩
    | true =>
      obtain ⟨h1, _⟩ := execute_ready t code s hd
      simp [step.apply, h1] at hg
  | on_message t message =>
    by_cases hm : message = "dom_loaded"
    · subst hm
      obtain ⟨_, h2, _⟩ := on_message_flush parse t s
      simp [step.apply, h2] at hg
    · obtain ⟨h1, _⟩ := on_message_other parse t message s hm
      simp [step.apply, h1] at hg
  | on_load t event =>
    obtain ⟨h1, _, _⟩ := on_load_pending t event s
    simp [step.apply, h1] at hg

/-- C8, as stated, fails: after the first flush a load-started signal makes the document
not-ready again, and the next `execute` is queued, so the queue is not empty in that
later state. -/
theorem pending_not_empty_after_first_flush :
    (run (fun _ => none)
        [step.on_message thread.ui "dom_loaded",
         step.on_load thread.ui WebKitLoadEvent.WEBKIT_LOAD_STARTED,
         step.execute thread.ui "a"]
        (webview.ctor ⟨"inject", "ready", web_frame.top⟩ thread.ui ⟨none, none, none⟩ true).self
      ).self.pending = ["a"] := by
  decide

/-- C8 (amended): the pending queue is empty at creation, where the document is
not-ready; in every state reachable by `execute`, `on_message` and load-changed events
the queue is empty whenever the document is ready (`dom_loaded = true`); a step makes the
queue longer only if it is an `execute` made while the document is not-ready; and every
flush (`on_message("dom_loaded")`) leaves the queue empty. After a flush the queue stays
empty until the next load-started signal makes the document not-ready again. -/
theorem pending_queue_lifecycle (parse : String → Option request) (b : bootstrap)
    (t0 : thread) (web_view : WebKitWebView) (context_menu : Bool) (es : List step) :
    (webview.ctor b t0 web_view context_menu).self.pending = [] ∧
    (webview.ctor b t0 web_view context_menu).self.dom_loaded = false ∧
    ((run parse es (webview.ctor b t0 web_view context_menu).self).self.dom_loaded = true →
      (run parse es (webview.ctor b t0 web_view context_menu).self).self.pending = []) ∧
    (∀ e : step,
      (run parse es (webview.ctor b t0 web_view context_menu).self).self.pending.length <
        (step.apply parse e
          (run parse es (webview.ctor b t0 web_view context_menu).self).self).self.pending.length →
      (run parse es (webview.ctor b t0 web_view context_menu).self).self.dom_loaded = false ∧
        ∃ t code, e = step.execute t code) ∧
    (∀ t : thread,
      (webview.on_message parse t "dom_loaded"
        (run parse es (webview.ctor b t0 web_view context_menu).self).self).self.pending = []) := by
  obtain ⟨h1, h2, _, _⟩ := ctor_self b t0 web_view context_menu
  have hinv := run_ready_empty parse es (webview.ctor b t0 web_view context_menu).self
    (fun _ => h1)
  refine ⟨h1, h2, hinv, ?_, ?_⟩
  · intro e hg
    exact step_grows_only_not_ready parse e _ hg
  · intro t
    rw [(on_message_flush parse t _).2.1]

/-! ## The scheme table -/

theorem reset_handler_keys (name : String) (l : List (String × scheme_state)) :
    (schemes_reset_handler name l).map Prod.fst = l.map Prod.fst := by
  induction l with
  | nil => rfl
  | cons e l ih =>
    unfold schemes_reset_handler
    split <;> simp [ih]

theorem reset_handler_contains (name x : String) (l : List (String × scheme_state)) :
    schemes_contains x (schemes_reset_handler name l) = schemes_contains x l := by
  induction l with
  | nil => rfl
  | cons e l ih =>
    unfold schemes_reset_handler
    simp only [schemes_contains] at ih ⊢
    split <;> simp [ih]

theorem reset_handler_at_self (name : String) (l : List (String × scheme_state))
    (h : schemes_contains name l = true) :
    schemes_at name (schemes_reset_handler name l) = some ⟨none⟩ := by
  induction l with
  | nil => simp [schemes_contains] at h
  | cons e l ih =>
    unfold schemes_reset_handler
    by_cases he : (e.1 == name) = true
    · simp [he, schemes_at]
    · have hl : schemes_contains name l = true := by
        simpa [schemes_contains, he] using h
      have := ih hl
      simp only [schemes_at] at this ⊢
      simp [he, this]

theorem reset_handler_at_other (name x : String) (l : List (String × scheme_state))
    (hx : x ≠ name) :
    schemes_at x (schemes_reset_handler name l) = schemes_at x l := by
  induction l with
  | nil => rfl
  | cons e l ih =>
    unfold schemes_reset_handler
    by_cases he : (e.1 == name) = true
    · have hne : (e.1 == x) = false := by
        have h1 : e.1 = name := by simpa using he
        simp [h1, Ne.symm hx]
      simp [he, schemes_at, hne]
    · simp only [schemes_at] at ih ⊢
      by_cases h2 : (e.1 == x) = true
      · simp [he, h2]
      · simp [he, h2, ih]

theorem remove_scheme_self (t : thread) (name : String) (s : impl) :
    (webview.remove_scheme t name s).self =
      (if schemes_contains name s.schemes
       then { s with schemes := schemes_reset_handler name s.schemes } else s) ∧
    (webview.remove_scheme t name s).calls =
      (if is_thread_safe t then [] else [(t, action.dispatch)]) := by
  cases t <;> by_cases h : schemes_contains name s.schemes = true <;>
    simp [webview.remove_scheme, guarded, is_thread_safe, dispatch, h]

/-- C3: `remove_scheme(name)`, from any thread, leaves the registered names as they are;
when the name is registered the table afterwards maps it to an empty handler, so the
old handler is out of reach; every other name keeps its state; when the name is not
registered the whole webview is unchanged; nothing but the table ever changes, and no
native call is made. -/
theorem remove_scheme_clears_handler_only (t : thread) (name : String) (s : impl) :
    (webview.remove_scheme t name s).self.schemes.map Prod.fst = s.schemes.map Prod.fst ∧
    (∀ x, schemes_contains x (webview.remove_scheme t name s).self.schemes
        = schemes_contains x s.schemes) ∧
    (schemes_contains name s.schemes = true →
      schemes_at name (webview.remove_scheme t name s).self.schemes = some ⟨none⟩) ∧
    (∀ x, x ≠ name →
      schemes_at x (webview.remove_scheme t name s).self.schemes = schemes_at x s.schemes) ∧
    (schemes_contains name s.schemes = false → (webview.remove_scheme t name s).self = s) ∧
    (webview.remove_scheme t name s).self
      = { s with schemes := (webview.remove_scheme t name s).self.schemes } ∧
    (webview.remove_scheme t name s).calls
      = (if is_thread_safe t then [] else [(t, action.dispatch)]) := by
  obtain ⟨h1, h2⟩ := remove_scheme_self t name s
  refine ⟨?_, ?_, ?_, ?_, ?_, ?_, h2⟩
  · rw [h1]
    split
    · exact reset_handler_keys name s.schemes
    · rfl
  · intro x
    rw [h1]
    split
    · exact reset_handler_contains name x s.schemes
    · rfl
  · intro hc
    rw [h1]
    simp only [hc, if_true]
    exact reset_handler_at_self name s.schemes hc
  · intro x hx
    rw [h1]
    split
    · exact reset_handler_at_other name x s.schemes hx
    · rfl
  · intro hc
    rw [h1]
    simp [hc]
  · rw [h1]
    split <;> rfl

/-- C2: when the name is already in the scheme table, `handle_scheme(name, handler)`,
from any thread, leaves the webview (the table and the state stored for the name
included) unchanged and makes no call besides the dispatch from a foreign thread, so
nothing is registered with the native engine; this is so too after `remove_scheme(name)`
has emptied the handler, which then stays empty. -/
theorem handle_scheme_registered_is_noop (t t' : thread) (name : String)
    (handler : scheme_handler) (s : impl) (h : schemes_contains name s.schemes = true) :
    (webview.handle_scheme t name handler s).self = s ∧
    (webview.handle_scheme t name handler s).calls
      = (if is_thread_safe t then [] else [(t, action.dispatch)]) ∧
    (webview.handle_scheme t name handler (webview.remove_scheme t' name s).self).self
      = (webview.remove_scheme t' name s).self ∧
    (webview.handle_scheme t name handler (webview.remove_scheme t' name s).self).calls
      = (if is_thread_safe t then [] else [(t, action.dispatch)]) ∧
    schemes_at name
      (webview.handle_scheme t name handler (webview.remove_scheme t' name s).self).self.schemes
      = some ⟨none⟩ := by
  have key : ∀ s' : impl, schemes_contains name s'.schemes = true →
      (webview.handle_scheme t name handler s').self = s' ∧
      (webview.handle_scheme t name handler s').calls
        = (if is_thread_safe t then [] else [(t, action.dispatch)]) := by
    intro s' h'
    cases t <;> simp [webview.handle_scheme, guarded, is_thread_safe, dispatch, h']
  have hr : (webview.remove_scheme t' name s).self
      = { s with schemes := schemes_reset_handler name s.schemes } := by
    rw [(remove_scheme_self t' name s).1, h]
    rfl
  have h' : schemes_contains name (webview.remove_scheme t' name s).self.schemes = true := by
    rw [hr]
    exact (reset_handler_contains name name s.schemes).trans h
  refine ⟨(key s h).1, (key s h).2, (key _ h').1, (key _ h').2, ?_⟩
  rw [(key _ h').1, hr]
  exact reset_handler_at_self name s.schemes h

/-- C2 at a table that holds the scheme `app` with handler 1: a second registration
from a foreign thread, with handler 2, changes nothing, before and after
`remove_scheme("app")`. -/
theorem handle_scheme_registered_is_noop_witness :
    schemes_contains "app"
      ({ impl_new ⟨none, none, none⟩ true with schemes := [("app", ⟨some 1⟩)] } : impl).schemes
      = true ∧
    (webview.handle_scheme thread.other "app" (some 2)
      { impl_new ⟨none, none, none⟩ true with schemes := [("app", ⟨some 1⟩)] }).self
      = { impl_new ⟨none, none, none⟩ true with schemes := [("app", ⟨some 1⟩)] } ∧
    (webview.handle_scheme thread.other "app" (some 2)
      { impl_new ⟨none, none, none⟩ true with schemes := [("app", ⟨some 1⟩)] }).calls
      = [(thread.other, action.dispatch)] ∧
    schemes_at "app"
      (webview.handle_scheme thread.other "app" (some 2)
        (webview.remove_scheme thread.ui "app"
          { impl_new ⟨none, none, none⟩ true with schemes := [("app", ⟨some 1⟩)] }).self).self.schemes
      = some ⟨none⟩ :=
  have h := handle_scheme_registered_is_noop thread.other thread.ui "app" (some 2)
    { impl_new ⟨none, none, none⟩ true with schemes := [("app", ⟨some 1⟩)] } (by decide)
  ⟨by decide, h.1, h.2.1, h.2.2.2.2⟩

/-! ## The script list -/

theorem inject_self (t : thread) (code : String) (time : load_time) (frame : web_frame)
    (s : impl) :
    ∃ u, (webview.inject t code time frame s).self = { s with scripts := s.scripts ++ [some u] } := by
  cases t <;> simp [webview.inject, guarded, is_thread_safe, dispatch]

theorem foldl_inject_self (injs : List (thread × String × load_time × web_frame)) (s : impl) :
    ∃ us, injs.foldl (fun acc i => (webview.inject i.1 i.2.1 i.2.2.1 i.2.2.2 acc).self) s
      = { s with scripts := s.scripts ++ us } := by
  induction injs generalizing s with
  | nil => exact ⟨[], by simp⟩
  | cons i injs ih =>
    obtain ⟨u, hu⟩ := inject_self i.1 i.2.1 i.2.2.1 i.2.2.2 s
    obtain ⟨us, hus⟩ := ih (webview.inject i.1 i.2.1 i.2.2.1 i.2.2.2 s).self
    refine ⟨some u :: us, ?_⟩
    rw [List.foldl_cons, hus, hu]
    simp only [List.append_assoc, List.singleton_append]

theorem clear_scripts_effect (t : thread) (s : impl) (b1 b2 : Option WebKitUserScript)
    (us : List (Option WebKitUserScript)) :
    (webview.clear_scripts t { s with scripts := b1 :: b2 :: us }).self
      = { s with scripts := [b1, b2] } ∧
    (webview.clear_scripts t { s with scripts := b1 :: b2 :: us }).calls
      = (if is_thread_safe t then [] else [(t, action.dispatch)]) ++
        us.map fun u => (thread.ui, action.webkit_user_content_manager_remove_script u) := by
  cases t <;>
    simp [webview.clear_scripts, guarded, is_thread_safe, dispatch, vector_resize]

/-- C4: on a script list made of two entries followed by any further entries,
`clear_scripts`, from any thread, leaves exactly the first two entries, unchanged and in
order, changes nothing else, and calls `webkit_user_content_manager_remove_script` once
for each later entry, in order (on the UI thread, after a dispatch when called from a
foreign thread). Every list reachable from construction by any number of `inject` calls
is of that form, its first two entries being the bootstrap scripts: there `clear_scripts`
restores the webview the constructor made; in particular after two `inject` calls. -/
theorem clear_scripts_keeps_bootstrap (t : thread) (s : impl) (b1 b2 : Option WebKitUserScript)
    (us : List (Option WebKitUserScript)) :
    (webview.clear_scripts t { s with scripts := b1 :: b2 :: us }).self
      = { s with scripts := [b1, b2] } ∧
    (webview.clear_scripts t { s with scripts := b1 :: b2 :: us }).calls
      = (if is_thread_safe t then [] else [(t, action.dispatch)]) ++
        (us.map fun u => (thread.ui, action.webkit_user_content_manager_remove_script u)) ∧
    (∀ (b : bootstrap) (t0 : thread) (web_view : WebKitWebView) (context_menu : Bool)
        (injs : List (thread × String × load_time × web_frame)),
      (webview.clear_scripts t
        (injs.foldl (fun acc i => (webview.inject i.1 i.2.1 i.2.2.1 i.2.2.2 acc).self)
          (webview.ctor b t0 web_view context_menu).self)).self
        = (webview.ctor b t0 web_view context_menu).self) ∧
    (∀ (b : bootstrap) (t0 t1 t2 : thread) (web_view : WebKitWebView) (context_menu : Bool)
        (c1 c2 : String) (l1 l2 : load_time) (f1 f2 : web_frame),
      (webview.clear_scripts t
        (webview.inject t2 c2 l2 f2
          (webview.inject t1 c1 l1 f1
            (webview.ctor b t0 web_view context_menu).self).self).self).self
        = (webview.ctor b t0 web_view context_menu).self) := by
  have hall : ∀ (b : bootstrap) (t0 : thread) (web_view : WebKitWebView) (context_menu : Bool)
        (injs : List (thread × String × load_time × web_frame)),
      (webview.clear_scripts t
        (injs.foldl (fun acc i => (webview.inject i.1 i.2.1 i.2.2.1 i.2.2.2 acc).self)
          (webview.ctor b t0 web_view context_menu).self)).self
        = (webview.ctor b t0 web_view context_menu).self := by
    intro b t0 web_view context_menu injs
    obtain ⟨_, _, _, c1, c2, hc⟩ := ctor_self b t0 web_view context_menu
    obtain ⟨vs, hvs⟩ := foldl_inject_self injs (webview.ctor b t0 web_view context_menu).self
    rw [hvs, hc]
    have := (clear_scripts_effect t (webview.ctor b t0 web_view context_menu).self
      (some c1) (some c2) vs).1
    rw [List.cons_append, List.cons_append, List.nil_append, this, ← hc]
  refine ⟨(clear_scripts_effect t s b1 b2 us).1, (clear_scripts_effect t s b1 b2 us).2, hall, ?_⟩
  intro b t0 t1 t2 web_view context_menu c1 c2 l1 l2 f1 f2
  exact hall b t0 web_view context_menu [(t1, c1, l1, f1), (t2, c2, l2, f2)]

/-! ## Message dispatch -/

/-- C5: `on_message` never hands the sentinel `dom_loaded` to the request parser (its
result does not depend on what the parser would answer for the sentinel); it returns
true exactly when the message is the sentinel or the parser yields a resize or a drag
request, calling `start_resize` with the parsed edge, or `start_drag`, and nothing else;
for every other message, those the parser rejects included, it returns false, makes no
call and leaves the webview (`dom_loaded` and the pending queue included) unchanged. -/
theorem on_message_recognises_sentinel_and_requests (parse parse' : String → Option request)
    (t : thread) (message : String) (s : impl) :
    ((∀ m, m ≠ "dom_loaded" → parse' m = parse m) →
      webview.on_message parse' t message s = webview.on_message parse t message s) ∧
    ((webview.on_message parse t message s).ret = true ↔
      (message = "dom_loaded" ∨ (∃ edge, parse message = some (request.resize edge)) ∨
        parse message = some request.drag)) ∧
    (message ≠ "dom_loaded" → ∀ edge, parse message = some (request.resize edge) →
      webview.on_message parse t message s
        = { ret := true, self := s, calls := [(t, action.start_resize edge)] }) ∧
    (message ≠ "dom_loaded" → parse message = some request.drag →
      webview.on_message parse t message s
        = { ret := true, self := s, calls := [(t, action.start_drag)] }) ∧
    (message ≠ "dom_loaded" → (¬ ∃ edge, parse message = some (request.resize edge)) →
      parse message ≠ some request.drag →
      parse message = none ∧
      webview.on_message parse t message s = { ret := false, self := s, calls := [] }) := by
  refine ⟨?_, ?_, ?_, ?_, ?_⟩
  · intro h
    by_cases hm : message = "dom_loaded"
    · simp [webview.on_message, hm]
    · simp [webview.on_message, hm, h message hm]
  · by_cases hm : message = "dom_loaded"
    · simp [webview.on_message, hm]
    · simp only [webview.on_message, hm, if_false, false_or]
      cases hp : parse message with
      | none => simp
      | some r => cases r <;> simp
  · intro hm edge hp
    simp [webview.on_message, hm, hp]
  · intro hm hp
    simp [webview.on_message, hm, hp]
  · intro hm h1 h2
    cases hp : parse message with
    | none => simp [webview.on_message, hm, hp]
    | some r =>
      cases r with
      | resize edge => exact absurd ⟨edge, hp⟩ h1
      | drag => exact absurd hp h2

/-! ## Thread affinity -/

theorem off_thread_guarded {α : Type} (t : thread) (body : thread → outcome α)
    (h : ∀ c ∈ (body thread.ui).calls, c.1 = thread.ui) :
    off_thread (guarded t body).calls = [] ∧
    ((guarded t body).calls.filter fun c => c.2 == action.dispatch).length
      ≤ 1 + ((body thread.ui).calls.filter fun c => c.2 == action.dispatch).length ∧
    (guarded t body).ret = (body thread.ui).ret ∧
    (guarded t body).self = (body thread.ui).self := by
  have hb : off_thread (body thread.ui).calls = [] := by
    unfold off_thread
    rw [List.filter_eq_nil_iff]
    intro c hc
    simp [h c hc]
  cases t with
  | ui => simp [guarded, is_thread_safe, hb]
  | other =>
    refine ⟨?_, ?_, rfl, rfl⟩
    · simp only [guarded, is_thread_safe, dispatch]
      unfold off_thread at hb ⊢
      simp [List.filter_cons, hb]
    · simp [guarded, is_thread_safe, dispatch, List.filter_cons]
      omega

/-- The operations that open with the guard make every call on the UI thread, also when
they are entered from a foreign thread. -/
theorem guarded_operations_stay_on_ui_thread (canonical : String → Option String) (t : thread)
    (s : impl) (str str2 : String) (time : load_time) (frame : web_frame)
    (handler : scheme_handler) (event : web_event) (flag : Bool) :
    off_thread (webview.favicon t s).calls = [] ∧
    off_thread (webview.page_title t s).calls = [] ∧
    off_thread (webview.url t s).calls = [] ∧
    off_thread (webview.context_menu t s).calls = [] ∧
    off_thread (webview.set_context_menu t flag s).calls = [] ∧
    off_thread (webview.set_url t str s).calls = [] ∧
    off_thread (webview.set_file canonical t str s).calls = [] ∧
    off_thread (webview.serve t str str2 s).calls = [] ∧
    off_thread (webview.clear_scripts t s).calls = [] ∧
    off_thread (webview.execute t str s).calls = [] ∧
    off_thread (webview.inject t str time frame s).calls = [] ∧
    off_thread (webview.handle_scheme t str handler s).calls = [] ∧
    off_thread (webview.remove_scheme t str s).calls = [] ∧
    off_thread (webview.clear t event s).calls = [] := by
  refine ⟨?_, ?_, ?_, ?_, ?_, ?_, ?_, ?_, ?_, ?_, ?_, ?_, ?_, ?_⟩
  · refine (off_thread_guarded t _ ?_).1
    simp
  · refine (off_thread_guarded t _ ?_).1
    simp
  · refine (off_thread_guarded t _ ?_).1
    intro c hc
    dsimp only at hc
    split at hc <;> simp_all
  · refine (off_thread_guarded t _ ?_).1
    simp
  · refine (off_thread_guarded t _ ?_).1
    simp
  · refine (off_thread_guarded t _ ?_).1
    simp
  · unfold webview.set_file
    cases canonical str with
    | none => rfl
    | some c =>
      refine (off_thread_guarded t _ ?_).1
      simp
  · refine (off_thread_guarded t _ ?_).1
    simp
  · refine (off_thread_guarded t _ ?_).1
    intro c hc
    dsimp only at hc
    split at hc <;>
      (simp only [List.mem_map] at hc
       obtain ⟨_, _, rfl⟩ := hc
       rfl)
  · refine (off_thread_guarded t _ ?_).1
    intro c hc
    simp only [webview.execute_body] at hc
    split at hc <;> simp_all
  · refine (off_thread_guarded t _ ?_).1
    simp
  · refine (off_thread_guarded t _ ?_).1
    intro c hc
    split at hc <;> simp at hc
    rcases hc with rfl | rfl | rfl <;> rfl
  · refine (off_thread_guarded t _ ?_).1
    intro c hc
    split at hc <;> simp at hc
  · refine (off_thread_guarded t _ ?_).1
    intro c hc
    cases event <;> simp at hc <;> first
      | (rcases hc with hc | rfl
         · split at hc <;> simp_all
         · rfl)
      | (subst hc; rfl)

/-- C9 fails at `remove`: called from a foreign thread, `webview::remove(event, id)`
does not dispatch; it calls `m_events.remove(event, id)` on the calling thread itself.
Its siblings on the event bus and on the scheme table, `clear` and `remove_scheme`, entered
from the same thread, dispatch once and touch nothing off the UI thread. -/
theorem remove_mutates_event_bus_off_thread (event : web_event) (id : Nat) (s : impl) :
    (webview.remove thread.other event id s).calls
      = [(thread.other, action.events_remove event id)] ∧
    off_thread (webview.remove thread.other event id s).calls
      = [(thread.other, action.events_remove event id)] ∧
    (thread.other, action.dispatch) ∉ (webview.remove thread.other event id s).calls ∧
    (webview.clear thread.other event s).calls.head? = some (thread.other, action.dispatch) ∧
    off_thread (webview.clear thread.other event s).calls = [] := by
  refine ⟨rfl, ?_, ?_, ?_, ?_⟩
  · simp [webview.remove, off_thread]
  · simp [webview.remove]
  · simp [webview.clear, guarded, is_thread_safe, dispatch]
  · cases event <;> simp [webview.clear, guarded, is_thread_safe, dispatch, off_thread] <;>
      split <;> simp

/-! ## Absent native values -/

/-- C10 fails at `page_title`: with a null title from the native engine it converts the
null pointer to `std::string`, which is undefined behaviour; `url`, with a null URI,
returns the empty string, and `favicon`, with a null texture, returns an icon that holds
the null handle without touching any reference count. -/
theorem page_title_of_null_title_is_undefined (t : thread) (s : impl) :
    (webview.page_title t { s with web_view := { s.web_view with title := none } }).ret
      = Except.error fault.string_from_nullptr ∧
    (webview.url t { s with web_view := { s.web_view with uri := none } }).ret
      = Except.ok "" ∧
    (∀ uri, (webview.url t { s with web_view := { s.web_view with uri := uri } }).ret
      ≠ Except.error fault.string_from_nullptr) ∧
    (webview.favicon t { s with web_view := { s.web_view with favicon := none } }).ret
      = ⟨⟨none⟩⟩ ∧
    (∀ c ∈ (webview.favicon t { s with web_view := { s.web_view with favicon := none } }).calls,
      ∀ e, c.2 ≠ action.g_object e) := by
  cases t <;>
    simp [webview.page_title, webview.url, webview.favicon, guarded, is_thread_safe, dispatch,
      std_string, g_object_ptr_copy, utils.ref_ptr.ref, utils.perform, utils.ref_ptr.raw_ctor]
  all_goals
    intro uri
    cases uri <;> simp [std_string]

end saucer
